import Mathlib

/-!
Shallow embedding of the Oracle Consensus & Reputation Engine of the
StellarSwipe contracts (contracts/oracle/src/{lib.rs, reputation.rs, types.rs}).

Machine integers are embedded as `Nat` (u32/u64) and `Int` (i128); Rust's
truncating `i128` division is `Int.tdiv`, `u32::saturating_sub` is `Nat`
subtraction.  The host-provided persisted key-value store becomes an explicit
`ContractState` record threaded through each operation; the ledger clock is an
explicit `now : Nat` argument.  Events have no state effect and are omitted.
-/

namespace StellarSwipe

/-- Opaque oracle/admin identity (`soroban_sdk::Address`). -/
abbrev Address := Nat

/-- `OracleReputation` from types.rs. -/
structure OracleReputation where
  total_submissions : Nat
  accurate_submissions : Nat
  avg_deviation : Int
  reputation_score : Nat
  weight : Nat
  last_slash : Nat
deriving DecidableEq, Repr

/-- `PriceSubmission` from types.rs. -/
structure PriceSubmission where
  oracle : Address
  price : Int
  timestamp : Nat
deriving DecidableEq, Repr

/-- `ConsensusPriceData` from types.rs. -/
structure ConsensusPriceData where
  price : Int
  timestamp : Nat
  num_oracles : Nat
deriving DecidableEq, Repr

/-- Error variants of `OracleError` (errors.rs), as used by lib.rs. -/
inductive OracleError where
  | Unauthorized
  | OracleAlreadyExists
  | OracleNotFound
  | InvalidPrice
  | LowReputation
  | InsufficientOracles
deriving DecidableEq, Repr

/-- `SlashReason` from reputation.rs. -/
inductive SlashReason where
  | MajorDeviation
  | SignatureFailure
deriving DecidableEq, Repr

/-- The persisted key-value storage of the contract, one field per
`StorageKey` used by the consensus engine. -/
structure ContractState where
  admin : Option Address
  oracles : List Address
  stats : List (Address × OracleReputation)
  submissions : List PriceSubmission
  consensus : Option ConsensusPriceData
deriving DecidableEq, Repr

/-- Lookup in the `Map<Address, OracleReputation>` stored under `OracleStats`. -/
def lookupStat : List (Address × OracleReputation) → Address → Option OracleReputation
  | [], _ => none
  | (a, r) :: rest, o => if a = o then some r else lookupStat rest o

/-- `Map::set`: replace the binding for `o`, or append a fresh one. -/
def setStat (o : Address) (r : OracleReputation) :
    List (Address × OracleReputation) → List (Address × OracleReputation)
  | [] => [(o, r)]
  | (a, s) :: rest => if a = o then (o, r) :: rest else (a, s) :: setStat o r rest

/-- The fresh-oracle default record (reputation.rs `get_oracle_stats` default,
also the record written by `register_oracle`). -/
def defaultReputation : OracleReputation :=
  { total_submissions := 0, accurate_submissions := 0, avg_deviation := 0,
    reputation_score := 50, weight := 1, last_slash := 0 }

/-- reputation.rs `get_oracle_stats`. -/
def get_oracle_stats (st : ContractState) (o : Address) : OracleReputation :=
  (lookupStat st.stats o).getD defaultReputation

/-- reputation.rs `save_oracle_stats`. -/
def save_oracle_stats (st : ContractState) (o : Address) (r : OracleReputation) :
    ContractState :=
  { st with stats := setStat o r st.stats }

/-- `WEEK_IN_SECONDS` from reputation.rs. -/
def WEEK_IN_SECONDS : Nat := 86400 * 7

/-- Body of reputation.rs `calculate_reputation`, on a stats record
(the source fetches the record then computes this). -/
def calculate_reputation_stats (now : Nat) (stats : OracleReputation) : Nat :=
  if stats.total_submissions = 0 then 50
  else
    let accuracy_score : Nat := stats.accurate_submissions * 60 / stats.total_submissions
    let deviation_penalty : Int := min (stats.avg_deviation.tdiv 1000) 30
    let deviation_score : Int := 30 - deviation_penalty
    let consistency_score : Nat := if now - stats.last_slash > WEEK_IN_SECONDS then 10 else 0
    let total : Int := (accuracy_score : Int) + deviation_score + (consistency_score : Int)
    (max (min total 100) 0).toNat

/-- reputation.rs `calculate_reputation`. -/
def calculate_reputation (now : Nat) (st : ContractState) (o : Address) : Nat :=
  calculate_reputation_stats now (get_oracle_stats st o)

/-- The weight tier `match` inside reputation.rs `adjust_oracle_weight`. -/
def weightTier (reputation : Nat) : Nat :=
  if 90 ≤ reputation ∧ reputation ≤ 100 then 10
  else if 75 ≤ reputation ∧ reputation ≤ 89 then 5
  else if 60 ≤ reputation ∧ reputation ≤ 74 then 2
  else if 50 ≤ reputation ∧ reputation ≤ 59 then 1
  else 0

/-- reputation.rs `adjust_oracle_weight`: returns the new weight and the
updated state. -/
def adjust_oracle_weight (now : Nat) (st : ContractState) (o : Address) :
    Nat × ContractState :=
  let reputation := calculate_reputation now st o
  let new_weight := weightTier reputation
  let stats := get_oracle_stats st o
  (new_weight,
   save_oracle_stats st o
     { stats with weight := new_weight, reputation_score := reputation })

/-- The deviation formula `(|submitted - consensus| * 10000) / consensus`
(basis points, truncating i128 division), shared by lib.rs and reputation.rs. -/
def deviationBps (submitted consensus : Int) : Int :=
  (((submitted - consensus).natAbs : Int) * 10000).tdiv consensus

/-- reputation.rs `track_oracle_accuracy`. -/
def track_oracle_accuracy (st : ContractState) (o : Address)
    (submitted_price consensus_price : Int) : ContractState :=
  let stats := get_oracle_stats st o
  let total' := stats.total_submissions + 1
  let deviation := deviationBps submitted_price consensus_price
  let total_dev : Int := stats.avg_deviation * ((total' - 1 : Nat) : Int)
  let avg' : Int := (total_dev + deviation).tdiv (total' : Int)
  let accurate' : Nat :=
    if deviation ≤ 100 then stats.accurate_submissions + 1
    else if deviation ≤ 500 then stats.accurate_submissions + 1
    else stats.accurate_submissions
  save_oracle_stats st o
    { stats with total_submissions := total', avg_deviation := avg',
                 accurate_submissions := accurate' }

/-- reputation.rs `slash_oracle` (u32 `saturating_sub` is Nat subtraction). -/
def slash_oracle (now : Nat) (st : ContractState) (o : Address)
    (reason : SlashReason) : ContractState :=
  let stats := get_oracle_stats st o
  let penalty : Nat := match reason with
    | .MajorDeviation => 20
    | .SignatureFailure => 30
  save_oracle_stats st o
    { stats with reputation_score := stats.reputation_score - penalty,
                 last_slash := now }

/-- reputation.rs `should_remove_oracle`. -/
def should_remove_oracle (now : Nat) (st : ContractState) (o : Address) : Bool :=
  let stats := get_oracle_stats st o
  if 100 ≤ stats.total_submissions ∧
      stats.accurate_submissions * 100 / stats.total_submissions < 50 then
    true
  else
    calculate_reputation now st o < 50

/-! ## lib.rs: OracleContract public operations

Fallible operations return `Except OracleError α × ContractState`; an error
is returned before any storage write, so the error component carries the
unchanged input state (matching the source's early returns). -/

/-- lib.rs `require_admin`. -/
def require_admin (st : ContractState) (caller : Address) : Except OracleError Unit :=
  match st.admin with
  | none => .error .Unauthorized
  | some a => if caller ≠ a then .error .Unauthorized else .ok ()

/-- lib.rs `register_oracle` (the host `require_auth` proof is out of scope). -/
def register_oracle (st : ContractState) (admin oracle : Address) :
    Except OracleError Unit × ContractState :=
  match require_admin st admin with
  | .error e => (.error e, st)
  | .ok () =>
    if oracle ∈ st.oracles then (.error .OracleAlreadyExists, st)
    else
      let st1 := { st with oracles := st.oracles ++ [oracle] }
      (.ok (), save_oracle_stats st1 oracle defaultReputation)

/-- lib.rs `submit_price`. -/
def submit_price (now : Nat) (st : ContractState) (oracle : Address) (price : Int) :
    Except OracleError Unit × ContractState :=
  if price ≤ 0 then (.error .InvalidPrice, st)
  else if oracle ∉ st.oracles then (.error .OracleNotFound, st)
  else if (get_oracle_stats st oracle).weight = 0 then (.error .LowReputation, st)
  else
    (.ok (),
     { st with submissions :=
         st.submissions ++ [{ oracle := oracle, price := price, timestamp := now }] })

/-- One adjacent compare-and-swap sweep of the in-place bubble sort in
lib.rs `weighted_median`, performing at most `k` comparisons (the inner
`for j in 0..k` loop; after a swap the larger element is carried forward). -/
def bpassN : Nat → List Int → List Int
  | 0, l => l
  | _ + 1, [] => []
  | _ + 1, [a] => [a]
  | k + 1, a :: b :: rest =>
    if a > b then b :: bpassN k (a :: rest) else a :: bpassN k (b :: rest)

/-- The outer `for i in 0..len` loop of the bubble sort: with `r + 1` passes
remaining out of `len` total, the current pass has bound `len - i - 1 = r`. -/
def bpasses : Nat → List Int → List Int
  | 0, l => l
  | r + 1, l => bpasses r (bpassN r l)

/-- The weighted price list built in lib.rs `weighted_median`: each
submission's price replicated `stats.weight.max(1)` times, in buffer order. -/
def weightedPrices (st : ContractState) : List PriceSubmission → List Int
  | [] => []
  | s :: rest =>
    List.replicate (max (get_oracle_stats st s.oracle).weight 1) s.price
      ++ weightedPrices st rest

/-- lib.rs `weighted_median`. -/
def weighted_median (st : ContractState) (submissions : List PriceSubmission) : Int :=
  if submissions = [] then 0
  else
    let weighted_prices := weightedPrices st submissions
    let len := weighted_prices.length
    let sortedPrices := bpasses len weighted_prices
    let mid := len / 2
    if len % 2 = 0 then
      ((sortedPrices.getD (mid - 1) 0) + sortedPrices.getD mid 0).tdiv 2
    else
      sortedPrices.getD mid 0

/-- The per-submission body of the accuracy/slash loop in
lib.rs `calculate_consensus`. -/
def processSubmission (now : Nat) (consensus_price : Int)
    (st : ContractState) (s : PriceSubmission) : ContractState :=
  let st1 := track_oracle_accuracy st s.oracle s.price consensus_price
  let deviation := deviationBps s.price consensus_price
  if deviation > 2000 then slash_oracle now st1 s.oracle .MajorDeviation else st1

/-- One iteration of the weight-adjustment loop in lib.rs
`calculate_consensus`: adjust the oracle's weight, then record it as a
removal candidate if `should_remove_oracle` holds. -/
def adjustStep (now : Nat) (acc : ContractState × List Address) (o : Address) :
    ContractState × List Address :=
  let st1 := (adjust_oracle_weight now acc.1 o).2
  if should_remove_oracle now st1 o then (st1, acc.2 ++ [o]) else (st1, acc.2)

/-- The whole weight-adjustment loop: the final state and the collected
removal candidates (`removed_oracles`). -/
def adjustAndCollect (now : Nat) (st : ContractState) (oracles : List Address) :
    ContractState × List Address :=
  oracles.foldl (adjustStep now) (st, [])

/-- lib.rs `remove_oracle_internal`: rebuild the oracle list without `oracle`. -/
def remove_oracle_internal (st : ContractState) (oracle : Address) : ContractState :=
  { st with oracles := st.oracles.filter (fun o => o ≠ oracle) }

/-- The removal loop of lib.rs `calculate_consensus`. -/
def applyRemovals (st : ContractState) (cands : List Address) : ContractState :=
  cands.foldl remove_oracle_internal st

/-- lib.rs `calculate_consensus`. -/
def calculate_consensus (now : Nat) (st : ContractState) :
    Except OracleError Int × ContractState :=
  let submissions := st.submissions
  let oracles := st.oracles
  if submissions = [] then (.error .InsufficientOracles, st)
  else
    let consensus_price := weighted_median st submissions
    let st1 := submissions.foldl (processSubmission now consensus_price) st
    let adjusted := adjustAndCollect now st1 oracles
    let st2 := adjusted.1
    let removed := adjusted.2
    let st3 := if oracles.length - removed.length ≥ 2 then applyRemovals st2 removed else st2
    let st4 := { st3 with
      consensus := some { price := consensus_price, timestamp := now,
                          num_oracles := submissions.length },
      submissions := [] }
    (.ok consensus_price, st4)

/-- lib.rs `get_oracle_reputation`. -/
def get_oracle_reputation (st : ContractState) (o : Address) : OracleReputation :=
  get_oracle_stats st o

/-- lib.rs `remove_oracle` (admin override, no quorum floor). -/
def remove_oracle (st : ContractState) (admin oracle : Address) :
    Except OracleError Unit × ContractState :=
  match require_admin st admin with
  | .error e => (.error e, st)
  | .ok () => (.ok (), remove_oracle_internal st oracle)

/-! ## Operation sequences (for the cross-round quorum invariant)

`Op` ranges over the public entry points other than the admin override
`remove_oracle`, which the spec's quorum floor explicitly exempts. -/

/-- A public contract call other than admin removal. -/
inductive Op where
  | register (admin oracle : Address)
  | submit (now : Nat) (oracle : Address) (price : Int)
  | consensus (now : Nat)
deriving DecidableEq, Repr

/-- Transactional application of one call: an error reverts to the input state. -/
def runOp (st : ContractState) : Op → ContractState
  | .register a o => (register_oracle st a o).2
  | .submit now o p => (submit_price now st o p).2
  | .consensus now => (calculate_consensus now st).2

/-- Run a sequence of public calls. -/
def runOps (st : ContractState) (ops : List Op) : ContractState :=
  ops.foldl runOp st

/-! ## Spec-side definitions

These restate the spec's wording of the aggregation algorithm and of the
reputation formula, to be compared against the source-derived functions. -/

/-- Spec §4.3 wording: for every submission, replicate its price
`weight.max(1)` times into a flat list. -/
def specWeightedList (st : ContractState) (subs : List PriceSubmission) : List Int :=
  subs.flatMap fun s =>
    List.replicate (max (get_oracle_stats st s.oracle).weight 1) s.price

/-- Median of a list assumed sorted ascending: the truncating integer average
of the two middle elements when the length is even, the middle element when
odd. -/
def listMedianTrunc (l : List Int) : Int :=
  if l.length % 2 = 0 then
    ((l.getD (l.length / 2 - 1) 0) + l.getD (l.length / 2) 0).tdiv 2
  else
    l.getD (l.length / 2) 0

/-- Spec §4.3 wording of the whole aggregator: sort the flat weighted list
ascending (any stable sort; `insertionSort` here) and take its median. -/
def spec_weighted_median (st : ContractState) (subs : List PriceSubmission) : Int :=
  listMedianTrunc ((specWeightedList st subs).insertionSort (fun a b => a ≤ b))

/-- `clamp(x, lo, hi)` as the spec writes it. -/
def claimClamp (x lo hi : Int) : Int := max lo (min hi x)

/-- The reputation formula exactly as the C5 claim states it:
`clamp(accurate*60/total + (30 - min(avg_deviation/1000, 30)) +
(10 if now - last_slash > 7 days else 0), 0, 100)`, truncating divisions,
with the fixed default 50 when `total_submissions = 0`. -/
def claimReputation (now : Nat) (s : OracleReputation) : Int :=
  if s.total_submissions = 0 then 50
  else claimClamp
    ((s.accurate_submissions * 60 / s.total_submissions : Nat)
      + (30 - min (s.avg_deviation.tdiv 1000) 30)
      + (if now - s.last_slash > 86400 * 7 then (10 : Int) else 0)) 0 100

/-- The removal candidates collected during a `calculate_consensus` call on
state `st` (the `removed_oracles` vector right before the floor check). -/
def removalCandidates (now : Nat) (st : ContractState) : List Address :=
  (adjustAndCollect now
    (st.submissions.foldl
      (processSubmission now (weighted_median st st.submissions)) st)
    st.oracles).2

/-! ## Storage-map lemmas -/

theorem lookupStat_setStat_self (o : Address) (r : OracleReputation) :
    ∀ m, lookupStat (setStat o r m) o = some r := by
  intro m
  induction m with
  | nil => simp [setStat, lookupStat]
  | cons p rest ih =>
    obtain ⟨a, s⟩ := p
    by_cases h : a = o
    · simp [setStat, h, lookupStat]
    · simp [setStat, h, lookupStat, ih]

theorem lookupStat_setStat_ne (o o' : Address) (r : OracleReputation)
    (h : o' ≠ o) : ∀ m, lookupStat (setStat o r m) o' = lookupStat m o' := by
  intro m
  have ho : ¬ o = o' := fun h' => h h'.symm
  induction m with
  | nil => simp [setStat, lookupStat, ho]
  | cons p rest ih =>
    obtain ⟨a, s⟩ := p
    by_cases ha : a = o
    · subst ha
      simp [setStat, lookupStat, ho]
    · simp [setStat, ha, lookupStat, ih]

theorem get_save_self (st : ContractState) (o : Address) (r : OracleReputation) :
    get_oracle_stats (save_oracle_stats st o r) o = r := by
  simp [get_oracle_stats, save_oracle_stats, lookupStat_setStat_self]

theorem get_save_ne (st : ContractState) (o o' : Address) (r : OracleReputation)
    (h : o' ≠ o) :
    get_oracle_stats (save_oracle_stats st o r) o' = get_oracle_stats st o' := by
  simp [get_oracle_stats, save_oracle_stats, lookupStat_setStat_ne o o' r h]

/-! ## Generic fold invariants -/

theorem foldl_invariant {σ α : Type} (f : σ → α → σ) (P : σ → Prop) (Q : α → Prop)
    (hpres : ∀ s a, P s → P (f s a)) (hestab : ∀ s a, Q a → P (f s a)) :
    ∀ (l : List α) (s : σ), (P s ∨ ∃ a ∈ l, Q a) → P (l.foldl f s) := by
  intro l
  induction l with
  | nil =>
    intro s h
    rcases h with hp | ⟨a, ha, _⟩
    · exact hp
    · simp at ha
  | cons a l ih =>
    intro s h
    rcases h with hp | ⟨b, hb, hq⟩
    · exact ih _ (Or.inl (hpres _ _ hp))
    · rcases List.mem_cons.mp hb with rfl | hb'
      · exact ih _ (Or.inl (hestab _ _ hq))
      · exact ih _ (Or.inr ⟨b, hb', hq⟩)

theorem foldl_pres {σ α : Type} (f : σ → α → σ) (P : σ → Prop)
    (hpres : ∀ s a, P s → P (f s a)) (l : List α) (s : σ) (h : P s) :
    P (l.foldl f s) :=
  foldl_invariant f P (fun _ => False) hpres (fun _ _ h' => absurd h' id) l s
    (Or.inl h)

/-! ## Bubble-sort correctness

The in-place bubble sort of `weighted_median` is `bpasses len`: `len` sweeps
with shrinking comparison bounds.  We show it produces the sorted permutation
of its input, hence coincides with `insertionSort`. -/

theorem bpassN_perm : ∀ (k : Nat) (l : List Int), List.Perm (bpassN k l) l
  | 0, l => by simp [bpassN]
  | _ + 1, [] => by simp [bpassN]
  | _ + 1, [a] => by simp [bpassN]
  | k + 1, a :: b :: rest => by
    simp only [bpassN]
    split
    · exact ((bpassN_perm k (a :: rest)).cons b).trans (List.Perm.swap a b rest)
    · exact (bpassN_perm k (b :: rest)).cons a

theorem bpasses_perm : ∀ (r : Nat) (l : List Int), List.Perm (bpasses r l) l
  | 0, l => by simp [bpasses]
  | r + 1, l => by
    simpa [bpasses] using (bpasses_perm r (bpassN r l)).trans (bpassN_perm r l)

theorem bpassN_append : ∀ (k : Nat) (xs t : List Int), xs.length = k + 1 →
    bpassN k (xs ++ t) = bpassN k xs ++ t := by
  intro k
  induction k with
  | zero => intro xs t _; simp [bpassN]
  | succ k ih =>
    intro xs t hlen
    match xs with
    | [] => simp at hlen
    | [a] => simp at hlen
    | a :: b :: xs' =>
      simp only [List.length_cons] at hlen
      have h1 : (a :: xs').length = k + 1 := by simpa using hlen
      have h2 : (b :: xs').length = k + 1 := by simpa using hlen
      simp only [List.cons_append, bpassN]
      split
      · rw [show a :: xs'.append t = (a :: xs') ++ t from rfl, ih (a :: xs') t h1]
        simp
      · rw [show b :: xs'.append t = (b :: xs') ++ t from rfl, ih (b :: xs') t h2]
        simp

theorem bpassN_last : ∀ (xs : List Int), xs ≠ [] →
    ∃ ys m, bpassN (xs.length - 1) xs = ys ++ [m] ∧ ∀ y ∈ xs, y ≤ m
  | [], h => absurd rfl h
  | [a], _ => ⟨[], a, by simp [bpassN], by simp⟩
  | a :: b :: rest, _ => by
    by_cases hab : a > b
    · obtain ⟨ys, m, heq, hle⟩ := bpassN_last (a :: rest) (by simp)
      refine ⟨b :: ys, m, ?_, ?_⟩
      · simp only [List.length_cons, Nat.add_sub_cancel, bpassN, if_pos hab]
        simp only [List.length_cons, Nat.add_sub_cancel] at heq
        rw [heq]
        simp
      · intro y hy
        rcases List.mem_cons.mp hy with rfl | hy'
        · exact hle y (by simp)
        · rcases List.mem_cons.mp hy' with rfl | hy''
          · exact le_trans (le_of_lt hab) (hle a (by simp))
          · exact hle y (by simp [hy''])
    · obtain ⟨ys, m, heq, hle⟩ := bpassN_last (b :: rest) (by simp)
      refine ⟨a :: ys, m, ?_, ?_⟩
      · simp only [List.length_cons, Nat.add_sub_cancel, bpassN, if_neg hab]
        simp only [List.length_cons, Nat.add_sub_cancel] at heq
        rw [heq]
        simp
      · intro y hy
        rcases List.mem_cons.mp hy with rfl | hy'
        · exact le_trans (le_of_not_lt hab) (hle b (by simp))
        · exact hle y hy'
  termination_by xs => xs.length

theorem bpasses_sorted_aux : ∀ (r : Nat) (xs t : List Int), xs.length = r →
    List.Sorted (fun a b => a ≤ b) t → (∀ x ∈ xs, ∀ y ∈ t, x ≤ y) →
    List.Sorted (fun a b => a ≤ b) (bpasses r (xs ++ t)) := by
  intro r
  induction r with
  | zero =>
    intro xs t hlen hsort _
    rw [List.length_eq_zero] at hlen
    subst hlen
    simpa [bpasses] using hsort
  | succ r ih =>
    intro xs t hlen hsort hcross
    have hne : xs ≠ [] := by
      intro h; subst h; simp at hlen
    simp only [bpasses]
    rw [bpassN_append r xs t hlen]
    obtain ⟨ys, m, heq, hle⟩ := bpassN_last xs hne
    have hr : xs.length - 1 = r := by omega
    rw [hr] at heq
    have hperm : List.Perm (ys ++ [m]) xs := heq ▸ bpassN_perm r xs
    have hm_mem : m ∈ xs := hperm.mem_iff.mp (by simp)
    have hys_len : ys.length = r := by
      have := hperm.length_eq
      simp at this
      omega
    have hys_sub : ∀ y ∈ ys, y ∈ xs := fun y hy =>
      hperm.mem_iff.mp (by simp [hy])
    rw [heq, List.append_assoc, List.singleton_append]
    refine ih ys (m :: t) hys_len ?_ ?_
    · rw [List.sorted_cons]
      exact ⟨fun b hb => hcross m hm_mem b hb, hsort⟩
    · intro x hx y hy
      rcases List.mem_cons.mp hy with rfl | hy'
      · exact hle x (hys_sub x hx)
      · exact hcross x (hys_sub x hx) y hy'

theorem bpasses_sorted (l : List Int) :
    List.Sorted (fun a b => a ≤ b) (bpasses l.length l) := by
  have := bpasses_sorted_aux l.length l [] rfl (by simp) (by simp)
  simpa using this

theorem bpasses_eq_insertionSort (l : List Int) :
    bpasses l.length l = l.insertionSort (fun a b => a ≤ b) :=
  List.eq_of_perm_of_sorted
    ((bpasses_perm l.length l).trans (List.perm_insertionSort _ l).symm)
    (bpasses_sorted l)
    (List.sorted_insertionSort _ l)

/-! ## Weighted-list lemmas -/

theorem weightedPrices_eq_spec (st : ContractState) :
    ∀ subs, weightedPrices st subs = specWeightedList st subs := by
  intro subs
  induction subs with
  | nil => simp [weightedPrices, specWeightedList]
  | cons s rest ih => simp [weightedPrices, specWeightedList, ih]

theorem mem_weightedPrices (st : ContractState) :
    ∀ subs (x : Int), x ∈ weightedPrices st subs → ∃ s ∈ subs, x = s.price := by
  intro subs
  induction subs with
  | nil => simp [weightedPrices]
  | cons s rest ih =>
    intro x hx
    rcases List.mem_append.mp hx with h | h
    · exact ⟨s, by simp, (List.eq_of_mem_replicate h)⟩
    · obtain ⟨s', hs', he⟩ := ih x h
      exact ⟨s', by simp [hs'], he⟩

theorem weightedPrices_ne_nil (st : ContractState) :
    ∀ subs, subs ≠ [] → weightedPrices st subs ≠ [] := by
  intro subs h
  match subs with
  | [] => exact absurd rfl h
  | s :: rest =>
    simp only [weightedPrices]
    intro hcontra
    rcases List.append_eq_nil.mp hcontra with ⟨h1, _⟩
    have : max (get_oracle_stats st s.oracle).weight 1 = 0 :=
      (List.replicate_eq_nil_iff _).mp h1
    omega

theorem weightedPrices_perm (st : ContractState) {s1 s2 : List PriceSubmission}
    (h : List.Perm s1 s2) :
    List.Perm (weightedPrices st s1) (weightedPrices st s2) := by
  induction h with
  | nil => simp [weightedPrices]
  | cons x _ ih =>
    simp only [weightedPrices]
    exact ih.append_left _
  | swap x y l =>
    simp only [weightedPrices, ← List.append_assoc]
    exact (List.perm_append_comm).append_right _
  | trans _ _ ih1 ih2 => exact ih1.trans ih2

/-- The bubble-sorted weighted list is the `insertionSort` of the weighted
list, so `weighted_median` is the spec's sorted-list median. -/
theorem weighted_median_eq_spec (st : ContractState) (subs : List PriceSubmission)
    (h : subs ≠ []) :
    weighted_median st subs =
      listMedianTrunc
        ((weightedPrices st subs).insertionSort (fun a b => a ≤ b)) := by
  have hlen : ((weightedPrices st subs).insertionSort
      (fun a b => a ≤ b)).length = (weightedPrices st subs).length :=
    (List.perm_insertionSort _ _).length_eq
  simp only [weighted_median, if_neg h, listMedianTrunc,
    bpasses_eq_insertionSort, hlen]

/-! ## State-component preservation lemmas -/

theorem get_congr {st1 st2 : ContractState} (h : st1.stats = st2.stats)
    (o : Address) : get_oracle_stats st1 o = get_oracle_stats st2 o := by
  simp [get_oracle_stats, h]

theorem processSubmission_oracles (now : Nat) (c : Int) (st : ContractState)
    (s : PriceSubmission) : (processSubmission now c st s).oracles = st.oracles := by
  unfold processSubmission
  dsimp only
  split <;> rfl

theorem processFold_oracles (now : Nat) (c : Int) :
    ∀ (l : List PriceSubmission) (st : ContractState),
      (l.foldl (processSubmission now c) st).oracles = st.oracles := by
  intro l
  induction l with
  | nil => intro st; rfl
  | cons s rest ih =>
    intro st
    rw [List.foldl_cons, ih, processSubmission_oracles]

theorem adjustStep_state (now : Nat) (acc : ContractState × List Address)
    (o : Address) :
    (adjustStep now acc o).1 = (adjust_oracle_weight now acc.1 o).2 := by
  unfold adjustStep
  dsimp only
  split <;> rfl

theorem adjustFold_oracles (now : Nat) :
    ∀ (l : List Address) (acc : ContractState × List Address),
      ((l.foldl (adjustStep now) acc).1).oracles = acc.1.oracles := by
  intro l
  induction l with
  | nil => intro acc; rfl
  | cons o rest ih =>
    intro acc
    rw [List.foldl_cons, ih, adjustStep_state]
    rfl

theorem adjustFold_submissions (now : Nat) :
    ∀ (l : List Address) (acc : ContractState × List Address),
      ((l.foldl (adjustStep now) acc).1).submissions = acc.1.submissions := by
  intro l
  induction l with
  | nil => intro acc; rfl
  | cons o rest ih =>
    intro acc
    rw [List.foldl_cons, ih, adjustStep_state]
    rfl

theorem applyRemovals_stats :
    ∀ (cands : List Address) (st : ContractState),
      (applyRemovals st cands).stats = st.stats := by
  intro cands
  induction cands with
  | nil => intro st; rfl
  | cons c rest ih =>
    intro st
    simp only [applyRemovals, List.foldl_cons] at ih ⊢
    rw [ih]
    rfl

/-! ## Per-record field lemmas for the accuracy/slash/adjust steps -/

theorem track_last_slash (st : ContractState) (o o' : Address) (p c : Int) :
    (get_oracle_stats (track_oracle_accuracy st o' p c) o).last_slash =
      (get_oracle_stats st o).last_slash := by
  by_cases h : o = o'
  · subst h
    simp [track_oracle_accuracy, get_save_self]
  · simp [track_oracle_accuracy, get_save_ne _ _ _ _ h]

theorem slash_last_slash_self (now : Nat) (st : ContractState) (o : Address)
    (r : SlashReason) :
    (get_oracle_stats (slash_oracle now st o r) o).last_slash = now := by
  simp [slash_oracle, get_save_self]

theorem slash_last_slash_ne (now : Nat) (st : ContractState) (o o' : Address)
    (r : SlashReason) (h : o ≠ o') :
    (get_oracle_stats (slash_oracle now st o' r) o).last_slash =
      (get_oracle_stats st o).last_slash := by
  simp [slash_oracle, get_save_ne _ _ _ _ h]

theorem slash_score_self (now : Nat) (st : ContractState) (o : Address) :
    (get_oracle_stats (slash_oracle now st o .MajorDeviation) o).reputation_score =
      (get_oracle_stats st o).reputation_score - 20 := by
  simp [slash_oracle, get_save_self]

theorem adjust_last_slash (now : Nat) (st : ContractState) (o o' : Address) :
    (get_oracle_stats (adjust_oracle_weight now st o').2 o).last_slash =
      (get_oracle_stats st o).last_slash := by
  by_cases h : o = o'
  · subst h
    simp [adjust_oracle_weight, get_save_self]
  · simp [adjust_oracle_weight, get_save_ne _ _ _ _ h]

theorem processSubmission_last_slash_pres (now : Nat) (c : Int)
    (st : ContractState) (s : PriceSubmission) (o : Address)
    (h : (get_oracle_stats st o).last_slash = now) :
    (get_oracle_stats (processSubmission now c st s) o).last_slash = now := by
  unfold processSubmission
  dsimp only
  split
  · by_cases ho : o = s.oracle
    · subst ho
      exact slash_last_slash_self now _ s.oracle _
    · rw [slash_last_slash_ne now _ o s.oracle _ ho, track_last_slash]
      exact h
  · rw [track_last_slash]
    exact h

theorem processSubmission_last_slash_estab (now : Nat) (c : Int)
    (st : ContractState) (s : PriceSubmission)
    (h : deviationBps s.price c > 2000) :
    (get_oracle_stats (processSubmission now c st s) s.oracle).last_slash = now := by
  unfold processSubmission
  dsimp only
  rw [if_pos h]
  exact slash_last_slash_self now _ s.oracle _

theorem adjustStep_last_slash (now : Nat) (acc : ContractState × List Address)
    (a o : Address) (h : (get_oracle_stats acc.1 o).last_slash = now) :
    (get_oracle_stats (adjustStep now acc a).1 o).last_slash = now := by
  rw [adjustStep_state, adjust_last_slash]
  exact h

/-! ## Weight/score tier synchronisation -/

/-- The C6 sync predicate: the stored weight is the tier image of the stored
reputation score. -/
def tierSync (st : ContractState) (o : Address) : Prop :=
  (get_oracle_stats st o).weight =
    weightTier (get_oracle_stats st o).reputation_score

theorem adjust_tierSync_self (now : Nat) (st : ContractState) (o : Address) :
    tierSync (adjust_oracle_weight now st o).2 o := by
  simp [tierSync, adjust_oracle_weight, get_save_self]

theorem adjustStep_tierSync_estab (now : Nat) (acc : ContractState × List Address)
    (o : Address) : tierSync (adjustStep now acc o).1 o := by
  rw [adjustStep_state]
  exact adjust_tierSync_self now acc.1 o

theorem adjustStep_tierSync_pres (now : Nat) (acc : ContractState × List Address)
    (a o : Address) (hs : tierSync acc.1 o) : tierSync (adjustStep now acc a).1 o := by
  rw [adjustStep_state]
  by_cases h : o = a
  · subst h
    exact adjust_tierSync_self now acc.1 o
  · simpa [tierSync, adjust_oracle_weight, get_save_ne _ _ _ _ h] using hs

/-! ## Quorum counting -/

theorem length_filter_ne (o : Address) :
    ∀ l : List Address, l.Nodup → l.length ≤ (l.filter (fun x => x ≠ o)).length + 1
  | [], _ => by simp
  | a :: rest, hl => by
    obtain ⟨ha, hrest⟩ := List.nodup_cons.mp hl
    have ih := length_filter_ne o rest hrest
    rw [List.filter_cons]
    by_cases hao : a = o
    · subst hao
      rw [if_neg (by simp)]
      have hfe : rest.filter (fun x => x ≠ a) = rest :=
        List.filter_eq_self.mpr (fun x hx => by
          simp only [decide_eq_true_eq]
          exact fun hxa => ha (hxa ▸ hx))
      rw [hfe]
      simp
    · rw [if_pos (by simpa using hao)]
      simp only [List.length_cons]
      omega

theorem applyRemovals_oracles_bound :
    ∀ (cands : List Address) (st : ContractState), st.oracles.Nodup →
      st.oracles.length ≤ (applyRemovals st cands).oracles.length + cands.length ∧
        (applyRemovals st cands).oracles.Nodup := by
  intro cands
  induction cands with
  | nil => intro st h; exact ⟨by simp [applyRemovals], h⟩
  | cons c rest ih =>
    intro st h
    have hstep : st.oracles.length ≤
        (remove_oracle_internal st c).oracles.length + 1 :=
      length_filter_ne c st.oracles h
    have hnodup : (remove_oracle_internal st c).oracles.Nodup := h.filter _
    have hrec := ih (remove_oracle_internal st c) hnodup
    simp only [applyRemovals, List.foldl_cons] at hrec ⊢
    constructor
    · have h2 := hrec.1
      simp only [List.length_cons]
      omega
    · exact hrec.2

/-! ## Concrete scenario states (built through the public entry points) -/

/-- Fresh contract state after `initialize` with admin identity 99. -/
def initState : ContractState :=
  { admin := some 99, oracles := [], stats := [], submissions := [], consensus := none }

/-- Spec §8 scenario: three freshly registered oracles 0, 1, 2 submit
100, 101, 150 at time 0. -/
def scenarioThree : ContractState :=
  let s1 := (register_oracle initState 99 0).2
  let s2 := (register_oracle s1 99 1).2
  let s3 := (register_oracle s2 99 2).2
  let s4 := (submit_price 0 s3 0 100).2
  let s5 := (submit_price 0 s4 1 101).2
  (submit_price 0 s5 2 150).2

/-- Oracles 0 and 1 registered; oracle 0 submits 200, oracle 1 submits 100
twice; then the admin removes oracle 0 while its submission is still in the
round buffer. -/
def scenarioRemovedMidRound : ContractState :=
  let s1 := (register_oracle initState 99 0).2
  let s2 := (register_oracle s1 99 1).2
  let s3 := (submit_price 0 s2 0 200).2
  let s4 := (submit_price 0 s3 1 100).2
  let s5 := (submit_price 0 s4 1 100).2
  (remove_oracle s5 99 0).2

/-- Oracles 0 and 1 registered, empty buffer. -/
def twoOracles : ContractState :=
  let s1 := (register_oracle initState 99 0).2
  (register_oracle s1 99 1).2

/-- Oracle 0 submits 10000, 10999, 12001 in that order; oracle 1 submits
10000 four times. -/
def stateOrderA : ContractState :=
  let s1 := (submit_price 0 twoOracles 0 10000).2
  let s2 := (submit_price 0 s1 0 10999).2
  let s3 := (submit_price 0 s2 0 12001).2
  let s4 := (submit_price 0 s3 1 10000).2
  let s5 := (submit_price 0 s4 1 10000).2
  let s6 := (submit_price 0 s5 1 10000).2
  (submit_price 0 s6 1 10000).2

/-- The same submissions as `stateOrderA`, with oracle 0's three submissions
arriving in the order 10999, 12001, 10000. -/
def stateOrderB : ContractState :=
  let s1 := (submit_price 0 twoOracles 0 10999).2
  let s2 := (submit_price 0 s1 0 12001).2
  let s3 := (submit_price 0 s2 0 10000).2
  let s4 := (submit_price 0 s3 1 10000).2
  let s5 := (submit_price 0 s4 1 10000).2
  let s6 := (submit_price 0 s5 1 10000).2
  (submit_price 0 s6 1 10000).2

/-- Both oracles of `twoOracles` submit prices so far apart that both become
removal candidates in the same round. -/
def badTwoState : ContractState :=
  let s1 := (submit_price 0 twoOracles 0 100).2
  (submit_price 0 s1 1 1000000).2

/-! ## Claims -/

/-- C2: `calculate_consensus` returns `InsufficientOracles` exactly when the
submission buffer is empty; in that case no persisted state is mutated; and
whenever the buffer is non-empty the call produces a consensus price — no
other failure is possible. -/
theorem claim_C2_empty_round_semantics (now : Nat) (st : ContractState) :
    ((calculate_consensus now st).1 = .error .InsufficientOracles ↔
      st.submissions = [])
    ∧ (st.submissions = [] → (calculate_consensus now st).2 = st)
    ∧ (st.submissions ≠ [] →
        (calculate_consensus now st).1 = .ok (weighted_median st st.submissions)) := by
  by_cases h : st.submissions = []
  · simp [calculate_consensus, h]
  · simp [calculate_consensus, h]

/-- Witness for C2 at a concrete empty-buffer state. -/
theorem claim_C2_witness : (calculate_consensus 0 initState).2 = initState :=
  (claim_C2_empty_round_semantics 0 initState).2.1 rfl

/-- C8: `submit_price` fails `InvalidPrice` exactly on `price ≤ 0`, then
`OracleNotFound` for an unregistered oracle, then `LowReputation` exactly
when the registered oracle's stored weight is 0, and otherwise appends
exactly one submission; every error leaves the state unchanged. -/
theorem claim_C8_submit_price_semantics (now : Nat) (st : ContractState)
    (o : Address) (p : Int) :
    (p ≤ 0 → submit_price now st o p = (.error .InvalidPrice, st))
    ∧ (0 < p → o ∉ st.oracles →
        submit_price now st o p = (.error .OracleNotFound, st))
    ∧ (0 < p → o ∈ st.oracles → (get_oracle_stats st o).weight = 0 →
        submit_price now st o p = (.error .LowReputation, st))
    ∧ (0 < p → o ∈ st.oracles → (get_oracle_stats st o).weight ≠ 0 →
        submit_price now st o p =
          (.ok (), { st with submissions := st.submissions ++
              [{ oracle := o, price := p, timestamp := now }] })) := by
  refine ⟨?_, ?_, ?_, ?_⟩
  · intro h1
    simp [submit_price, h1]
  · intro h1 h2
    simp [submit_price, not_le.mpr h1, h2]
  · intro h1 h2 h3
    simp [submit_price, not_le.mpr h1, h2, h3]
  · intro h1 h2 h3
    simp [submit_price, not_le.mpr h1, h2, h3]

/-- Witness for C8: price 0 is rejected with no buffer mutation, and a valid
submission appends exactly one entry. -/
theorem claim_C8_witness :
    submit_price 0 twoOracles 0 0 = (.error .InvalidPrice, twoOracles)
    ∧ submit_price 5 twoOracles 0 77 =
        (.ok (), { twoOracles with submissions := twoOracles.submissions ++
            [{ oracle := 0, price := 77, timestamp := 5 }] }) :=
  ⟨(claim_C8_submit_price_semantics 0 twoOracles 0 0).1 (by norm_num),
   (claim_C8_submit_price_semantics 5 twoOracles 0 77).2.2.2 (by norm_num)
     (by decide) (by decide)⟩

/-- C10: registering an oracle that is not currently in the active set
succeeds and overwrites its entire reputation record with the fresh defaults
(score 50, weight 1, zeroed history), whatever it held before. -/
theorem claim_C10_reregistration_resets (st : ContractState) (a o : Address)
    (hadmin : st.admin = some a) (hno : o ∉ st.oracles) :
    (register_oracle st a o).1 = .ok ()
    ∧ get_oracle_reputation (register_oracle st a o).2 o =
        { total_submissions := 0, accurate_submissions := 0, avg_deviation := 0,
          reputation_score := 50, weight := 1, last_slash := 0 }
    ∧ o ∈ (register_oracle st a o).2.oracles := by
  have hreq : require_admin st a = .ok () := by simp [require_admin, hadmin]
  simp only [register_oracle, hreq]
  simp [hno, get_oracle_reputation, defaultReputation, save_oracle_stats,
    get_oracle_stats, lookupStat_setStat_self]

/-- Witness for C10: oracle 2, automatically removed during the
`scenarioThree` consensus round with accumulated (slashed) history,
re-registers and its record is reset to the defaults. -/
theorem claim_C10_witness :
    (register_oracle (calculate_consensus 0 scenarioThree).2 99 2).1 = .ok ()
    ∧ get_oracle_reputation
        (register_oracle (calculate_consensus 0 scenarioThree).2 99 2).2 2 =
        { total_submissions := 0, accurate_submissions := 0, avg_deviation := 0,
          reputation_score := 50, weight := 1, last_slash := 0 }
    ∧ 2 ∈ (register_oracle (calculate_consensus 0 scenarioThree).2 99 2).2.oracles :=
  claim_C10_reregistration_resets (calculate_consensus 0 scenarioThree).2 99 2
    rfl (by decide)

/-- C5: `calculate_reputation` is 50 for an oracle with no submissions, and
otherwise the clamp formula
`clamp(accurate*60/total + (30 - min(avg_deviation/1000, 30)) +
(10 if now - last_slash > 7 days else 0), 0, 100)` with truncating
divisions. -/
theorem claim_C5_reputation_formula (now : Nat) (s : OracleReputation) :
    ((calculate_reputation_stats now s : Nat) : Int) = claimReputation now s := by
  by_cases h : s.total_submissions = 0
  · simp [calculate_reputation_stats, claimReputation, h]
  · by_cases hc : now - s.last_slash > 86400 * 7
    · simp only [calculate_reputation_stats, claimReputation, claimClamp,
        WEEK_IN_SECONDS, if_neg h, if_pos hc]
      rw [Int.toNat_of_nonneg (le_max_right _ 0), max_comm, min_comm]
      push_cast
      ring_nf
    · simp only [calculate_reputation_stats, claimReputation, claimClamp,
        WEEK_IN_SECONDS, if_neg h, if_neg hc]
      rw [Int.toNat_of_nonneg (le_max_right _ 0), max_comm, min_comm]
      push_cast
      ring_nf

/-- C3: for every round that produces a price, the consensus price equals
the spec's weighted median: each submission's price replicated
`max(weight, 1)` times into a flat list, sorted ascending, then the middle
element (odd length) or the truncating average of the two middle elements
(even length). -/
theorem claim_C3_weighted_median_spec (now : Nat) (st : ContractState) (p : Int)
    (h : (calculate_consensus now st).1 = .ok p) :
    p = spec_weighted_median st st.submissions := by
  have hne : st.submissions ≠ [] := by
    intro hnil
    simp [calculate_consensus, hnil] at h
  have hp : p = weighted_median st st.submissions := by
    simp [calculate_consensus, if_neg hne] at h
    exact h.symm
  rw [hp, spec_weighted_median, ← weightedPrices_eq_spec,
    weighted_median_eq_spec st st.submissions hne]

/-- Witness for C3: the spec §8 scenario returns 101, the spec median. -/
theorem claim_C3_witness :
    (calculate_consensus 0 scenarioThree).1 = Except.ok 101
    ∧ (101 : Int) = spec_weighted_median scenarioThree scenarioThree.submissions :=
  ⟨rfl, claim_C3_weighted_median_spec 0 scenarioThree 101 rfl⟩

/-- C4: the consensus price of every round with at least one submission lies
between any lower bound and any upper bound of that round's submitted prices
(in particular between the minimum and maximum submitted price). -/
theorem claim_C4_median_bounds (now : Nat) (st : ContractState) (p : Int)
    (lo hi : Int) (hok : (calculate_consensus now st).1 = .ok p)
    (hpos : ∀ s ∈ st.submissions, 0 < s.price)
    (hbound : ∀ s ∈ st.submissions, lo ≤ s.price ∧ s.price ≤ hi) :
    lo ≤ p ∧ p ≤ hi := by
  have hne : st.submissions ≠ [] := by
    intro hnil
    simp [calculate_consensus, hnil] at hok
  have hp : p = weighted_median st st.submissions := by
    simp [calculate_consensus, if_neg hne] at hok
    exact hok.symm
  rw [hp, weighted_median_eq_spec st st.submissions hne]
  set wl := weightedPrices st st.submissions with hwl
  set swl := wl.insertionSort (fun a b => a ≤ b) with hswl
  have hmem : ∀ x ∈ swl, 0 < x ∧ lo ≤ x ∧ x ≤ hi := by
    intro x hx
    have hx' : x ∈ wl := (List.perm_insertionSort _ wl).mem_iff.mp hx
    obtain ⟨s, hs, rfl⟩ := mem_weightedPrices st st.submissions x hx'
    exact ⟨hpos s hs, hbound s hs⟩
  have hlen : swl.length ≠ 0 := by
    have h1 : wl ≠ [] := weightedPrices_ne_nil st st.submissions hne
    have h2 : swl.length = wl.length := (List.perm_insertionSort _ wl).length_eq
    rw [h2]
    simpa using h1
  unfold listMedianTrunc
  by_cases hpar : swl.length % 2 = 0
  · rw [if_pos hpar]
    have hlen2 : 2 ≤ swl.length := by omega
    have hi1 : swl.length / 2 - 1 < swl.length := by omega
    have hi2 : swl.length / 2 < swl.length := by omega
    rw [List.getD_eq_getElem swl 0 hi1, List.getD_eq_getElem swl 0 hi2]
    obtain ⟨ha0, ha1, ha2⟩ := hmem _ (List.getElem_mem hi1)
    obtain ⟨hb0, hb1, hb2⟩ := hmem _ (List.getElem_mem hi2)
    set a := swl[swl.length / 2 - 1]
    set b := swl[swl.length / 2]
    have habnn : (0 : Int) ≤ a + b := by omega
    rw [Int.tdiv_eq_ediv habnn (by norm_num)]
    constructor
    · have h2 : lo * 2 ≤ a + b := by omega
      have hcan : lo = lo * 2 / 2 := (Int.mul_ediv_cancel lo (by norm_num)).symm
      calc lo = lo * 2 / 2 := hcan
        _ ≤ (a + b) / 2 := Int.ediv_le_ediv (by norm_num) h2
    · have h2 : a + b ≤ hi * 2 := by omega
      calc (a + b) / 2 ≤ hi * 2 / 2 := Int.ediv_le_ediv (by norm_num) h2
        _ = hi := Int.mul_ediv_cancel hi (by norm_num)
  · rw [if_neg hpar]
    have hi2 : swl.length / 2 < swl.length := by omega
    rw [List.getD_eq_getElem swl 0 hi2]
    obtain ⟨_, hb1, hb2⟩ := hmem _ (List.getElem_mem hi2)
    exact ⟨hb1, hb2⟩

/-- Witness for C4 at the spec §8 scenario: 100 ≤ 101 ≤ 150. -/
theorem claim_C4_witness : (100 : Int) ≤ 101 ∧ (101 : Int) ≤ 150 :=
  claim_C4_median_bounds 0 scenarioThree 101 100 150 rfl (by decide) (by decide)

theorem submit_price_oracles (now : Nat) (st : ContractState) (o : Address)
    (p : Int) : (submit_price now st o p).2.oracles = st.oracles := by
  unfold submit_price
  split
  · rfl
  · split
    · rfl
    · split <;> rfl

theorem consensus_quorum_step (now : Nat) (st : ContractState)
    (hnodup : st.oracles.Nodup) (h2 : 2 ≤ st.oracles.length) :
    2 ≤ ((calculate_consensus now st).2).oracles.length ∧
      ((calculate_consensus now st).2).oracles.Nodup := by
  by_cases hsub : st.submissions = []
  · simp only [calculate_consensus, if_pos hsub]
    exact ⟨h2, hnodup⟩
  · simp only [calculate_consensus, if_neg hsub]
    have horacles : (adjustAndCollect now
        (st.submissions.foldl
          (processSubmission now (weighted_median st st.submissions)) st)
        st.oracles).1.oracles = st.oracles := by
      unfold adjustAndCollect
      rw [adjustFold_oracles]
      dsimp only
      rw [processFold_oracles]
    split
    · rename_i hcond
      have hb := applyRemovals_oracles_bound
        (adjustAndCollect now
          (st.submissions.foldl
            (processSubmission now (weighted_median st st.submissions)) st)
          st.oracles).2
        (adjustAndCollect now
          (st.submissions.foldl
            (processSubmission now (weighted_median st st.submissions)) st)
          st.oracles).1
        (by rw [horacles]; exact hnodup)
      refine ⟨?_, hb.2⟩
      have hb1 := hb.1
      rw [horacles] at hb1
      omega
    · rw [horacles]
      exact ⟨h2, hnodup⟩

theorem runOp_quorum (st : ContractState) (op : Op)
    (h : st.oracles.Nodup ∧ 2 ≤ st.oracles.length) :
    (runOp st op).oracles.Nodup ∧ 2 ≤ (runOp st op).oracles.length := by
  obtain ⟨hnodup, h2⟩ := h
  cases op with
  | register a o =>
    show ((register_oracle st a o).2.oracles).Nodup ∧
      2 ≤ ((register_oracle st a o).2.oracles).length
    unfold register_oracle
    cases hreq : require_admin st a with
    | error e => exact ⟨hnodup, h2⟩
    | ok u =>
      cases u
      by_cases hmem : o ∈ st.oracles
      · simp only [if_pos hmem]
        exact ⟨hnodup, h2⟩
      · simp only [if_neg hmem]
        constructor
        · show (st.oracles ++ [o]).Nodup
          simp [List.nodup_append, hnodup, hmem]
        · show 2 ≤ (st.oracles ++ [o]).length
          simp only [List.length_append, List.length_cons, List.length_nil]
          omega
  | submit now o p =>
    show ((submit_price now st o p).2.oracles).Nodup ∧
      2 ≤ ((submit_price now st o p).2.oracles).length
    rw [submit_price_oracles]
    exact ⟨hnodup, h2⟩
  | consensus now =>
    have h := consensus_quorum_step now st hnodup h2
    exact ⟨h.2, h.1⟩

/-- C1: if removing all of a round's removal candidates would leave fewer
than 2 registered oracles, `calculate_consensus` removes no oracle at all
(all-or-nothing); and starting from any duplicate-free registry with at
least 2 oracles, no sequence of public calls (registration, submission,
consensus rounds — the floor-exempt admin override excepted) ever brings
the registered-oracle count below 2. -/
theorem claim_C1_quorum_floor :
    (∀ (now : Nat) (st : ContractState),
        st.oracles.length - (removalCandidates now st).length < 2 →
        ((calculate_consensus now st).2).oracles = st.oracles)
    ∧ (∀ (st : ContractState) (ops : List Op), st.oracles.Nodup →
        2 ≤ st.oracles.length → 2 ≤ (runOps st ops).oracles.length) := by
  constructor
  · intro now st hlt
    by_cases hsub : st.submissions = []
    · simp [calculate_consensus, hsub]
    · unfold removalCandidates at hlt
      simp only [calculate_consensus, if_neg hsub]
      rw [if_neg (by omega)]
      unfold adjustAndCollect
      rw [adjustFold_oracles]
      dsimp only
      rw [processFold_oracles]
  · intro st ops hnodup h2
    have h := foldl_pres runOp
      (fun s => s.oracles.Nodup ∧ 2 ≤ s.oracles.length)
      (fun s a hp => runOp_quorum s a hp) ops st ⟨hnodup, h2⟩
    exact h.2

/-- Witness for C1: with 2 oracles both becoming removal candidates, nothing
is removed, and a consensus round keeps the count at 2. -/
theorem claim_C1_witness :
    ((calculate_consensus 0 badTwoState).2).oracles = badTwoState.oracles
    ∧ 2 ≤ (runOps badTwoState [Op.consensus 0]).oracles.length :=
  ⟨claim_C1_quorum_floor.1 0 badTwoState (by decide),
   claim_C1_quorum_floor.2 badTwoState [Op.consensus 0] (by decide) (by decide)⟩

/-- Congruence: the weighted price list depends on the state only through
its stats map. -/
theorem weightedPrices_congr {st1 st2 : ContractState} (h : st1.stats = st2.stats) :
    ∀ subs, weightedPrices st1 subs = weightedPrices st2 subs := by
  intro subs
  induction subs with
  | nil => rfl
  | cons s rest ih =>
    simp only [weightedPrices, ih, get_congr h]

/-- The sync predicate is determined by the stats map alone. -/
theorem tierSync_congr {st1 st2 : ContractState} (h : st1.stats = st2.stats)
    (o : Address) (hs : tierSync st2 o) : tierSync st1 o := by
  unfold tierSync
  rw [get_congr h]
  exact hs

/-- C6 counterexample: oracle 0, removed by the admin while its submission
was still buffered, is slashed during the next `calculate_consensus` call but
skipped by the weight-adjustment loop, leaving its observable record with
weight 1 while the tier image of its score 30 is 0. -/
theorem claim_C6_counterexample :
    (calculate_consensus 0 scenarioRemovedMidRound).1 = Except.ok 100
    ∧ (get_oracle_reputation
        ((calculate_consensus 0 scenarioRemovedMidRound).2) 0).reputation_score = 30
    ∧ (get_oracle_reputation
        ((calculate_consensus 0 scenarioRemovedMidRound).2) 0).weight ≠
      weightTier ((get_oracle_reputation
        ((calculate_consensus 0 scenarioRemovedMidRound).2) 0).reputation_score) :=
  ⟨rfl, by decide, by decide⟩

/-- C6 (amended): after every `calculate_consensus` call, every oracle that
was registered when the call began — including any removed during the call —
has its stored weight equal to the deterministic tier image of its stored
reputation score; records of oracles already removed before the call may
stay out of sync. -/
theorem claim_C6_amended_tier_sync (now : Nat) (st st' : ContractState)
    (p : Int) (o : Address) (hcall : calculate_consensus now st = (.ok p, st'))
    (ho : o ∈ st.oracles) :
    (get_oracle_reputation st' o).weight =
      weightTier (get_oracle_reputation st' o).reputation_score := by
  have hne : st.submissions ≠ [] := by
    intro hnil
    rw [show calculate_consensus now st = (.error .InsufficientOracles, st) by
      simp [calculate_consensus, hnil]] at hcall
    exact Except.noConfusion (congrArg Prod.fst hcall)
  have hst' : st' = (calculate_consensus now st).2 :=
    (congrArg Prod.snd hcall).symm
  subst hst'
  simp only [calculate_consensus, if_neg hne]
  have hadj : tierSync
      (adjustAndCollect now
        (st.submissions.foldl
          (processSubmission now (weighted_median st st.submissions)) st)
        st.oracles).1 o := by
    unfold adjustAndCollect
    exact foldl_invariant (adjustStep now)
      (fun acc => tierSync acc.1 o) (fun a => a = o)
      (fun acc a hp => adjustStep_tierSync_pres now acc a o hp)
      (fun acc a hq => hq ▸ adjustStep_tierSync_estab now acc a)
      st.oracles _ (Or.inr ⟨o, ho, rfl⟩)
  set A := adjustAndCollect now
    (st.submissions.foldl
      (processSubmission now (weighted_median st st.submissions)) st)
    st.oracles with hA
  show tierSync _ o
  split
  · exact tierSync_congr (by exact applyRemovals_stats A.2 A.1) o hadj
  · exact tierSync_congr (by rfl) o hadj

/-- Witness for the amended C6: oracle 2 is removed during the
`scenarioThree` round, yet its record ends the call in sync. -/
theorem claim_C6_witness :
    (get_oracle_reputation (calculate_consensus 0 scenarioThree).2 2).weight =
      weightTier ((get_oracle_reputation
        (calculate_consensus 0 scenarioThree).2 2).reputation_score) :=
  claim_C6_amended_tier_sync 0 scenarioThree _ 101 2 rfl (by decide)

/-- The stored stats record of an oracle, as read from a state determined on
its stats map alone (specialised `get_congr` for `last_slash`). -/
theorem last_slash_congr {st1 st2 : ContractState} (h : st1.stats = st2.stats)
    (o : Address) (hs : (get_oracle_stats st2 o).last_slash = now) :
    (get_oracle_stats st1 o).last_slash = now := by
  rw [get_congr h]
  exact hs

/-- C7 counterexample: in the spec's own 100/101/150 scenario the deviating
oracle (price 150, deviation 4851 bps > 2000) is slashed, but the reputation
score observable after the call is 26, not 50 - 20 = 30: the
weight-adjustment step recomputed it from the accumulated stats. -/
theorem claim_C7_counterexample :
    (calculate_consensus 0 scenarioThree).1 = Except.ok 101
    ∧ deviationBps 150 101 > 2000
    ∧ (get_oracle_reputation scenarioThree 2).reputation_score = 50
    ∧ (get_oracle_reputation
        (calculate_consensus 0 scenarioThree).2 2).reputation_score = 26
    ∧ (26 : Nat) ≠ 50 - 20 :=
  ⟨rfl, by decide, by decide, by decide, by decide⟩

/-- C7 (amended): a submission deviating more than 2000 bps from the round's
consensus triggers a slash — the slash step decreases the stored score by 20
(saturating at 0) and sets `last_slash` to the current ledger timestamp — and
after the `calculate_consensus` call the oracle's observable `last_slash`
equals that timestamp; the observable reputation score, however, is
recomputed from the accumulated statistics by the weight-adjustment step, so
it need not equal the pre-round score minus 20. -/
theorem claim_C7_amended_slash (now : Nat) (st st' st0 : ContractState)
    (p : Int) (o : Address) (s : PriceSubmission)
    (hcall : calculate_consensus now st = (.ok p, st'))
    (hs : s ∈ st.submissions) (ho : s.oracle = o)
    (hdev : deviationBps s.price (weighted_median st st.submissions) > 2000) :
    (get_oracle_stats (slash_oracle now st0 o .MajorDeviation) o).reputation_score
      = (get_oracle_stats st0 o).reputation_score - 20
    ∧ (get_oracle_stats (slash_oracle now st0 o .MajorDeviation) o).last_slash = now
    ∧ (get_oracle_reputation st' o).last_slash = now := by
  refine ⟨slash_score_self now st0 o, slash_last_slash_self now st0 o _, ?_⟩
  have hne : st.submissions ≠ [] := fun hnil => by
    rw [hnil] at hs
    simp at hs
  have hst' : st' = (calculate_consensus now st).2 :=
    (congrArg Prod.snd hcall).symm
  subst hst'
  simp only [calculate_consensus, if_neg hne]
  have hproc : (get_oracle_stats
      (st.submissions.foldl
        (processSubmission now (weighted_median st st.submissions)) st)
      o).last_slash = now := by
    refine foldl_invariant
      (processSubmission now (weighted_median st st.submissions))
      (fun s' => (get_oracle_stats s' o).last_slash = now)
      (fun sub => sub.oracle = o ∧
        deviationBps sub.price (weighted_median st st.submissions) > 2000)
      (fun s' a hp => processSubmission_last_slash_pres now _ s' a o hp)
      (fun s' a hq => ?_)
      st.submissions st (Or.inr ⟨s, hs, ho, hdev⟩)
    have he := processSubmission_last_slash_estab now
      (weighted_median st st.submissions) s' a hq.2
    rwa [hq.1] at he
  have hadj : (get_oracle_stats
      (adjustAndCollect now
        (st.submissions.foldl
          (processSubmission now (weighted_median st st.submissions)) st)
        st.oracles).1 o).last_slash = now := by
    unfold adjustAndCollect
    exact foldl_pres (adjustStep now)
      (fun acc => (get_oracle_stats acc.1 o).last_slash = now)
      (fun acc a hp => adjustStep_last_slash now acc a o hp)
      st.oracles _ hproc
  set A := adjustAndCollect now
    (st.submissions.foldl
      (processSubmission now (weighted_median st st.submissions)) st)
    st.oracles with hA
  show (get_oracle_stats _ o).last_slash = now
  split
  · exact last_slash_congr (by exact applyRemovals_stats A.2 A.1) o hadj
  · exact last_slash_congr (by rfl) o hadj

/-- Witness for the amended C7 at the 100/101/150 scenario run at time 5:
the slash step subtracts 20 and stamps `last_slash`, and the deviating
oracle's observable `last_slash` after the call is 5. -/
theorem claim_C7_witness :
    ((get_oracle_stats (slash_oracle 5 initState 2 .MajorDeviation) 2).reputation_score
      = (get_oracle_stats initState 2).reputation_score - 20)
    ∧ (get_oracle_stats (slash_oracle 5 initState 2 .MajorDeviation) 2).last_slash = 5
    ∧ (get_oracle_reputation (calculate_consensus 5 scenarioThree).2 2).last_slash = 5 :=
  claim_C7_amended_slash 5 scenarioThree _ initState 101 2
    { oracle := 2, price := 150, timestamp := 0 } rfl (by decide) rfl (by decide)

/-- C9 counterexample: two buffers holding the same multiset of submissions
(oracle 0's prices 10000, 10999, 12001 in different orders) yield the same
consensus price 10000, but oracle 0's final reputation score is 50 in one
order and 49 in the other (and its weight 1 versus 0): the rolling
`avg_deviation` truncates at every step, so the buffer's insertion order
leaks into the final reputation. -/
theorem claim_C9_counterexample :
    List.Perm stateOrderA.submissions stateOrderB.submissions
    ∧ stateOrderA.oracles = stateOrderB.oracles
    ∧ stateOrderA.stats = stateOrderB.stats
    ∧ (calculate_consensus 0 stateOrderA).1 = Except.ok 10000
    ∧ (calculate_consensus 0 stateOrderB).1 = Except.ok 10000
    ∧ (get_oracle_reputation
        (calculate_consensus 0 stateOrderA).2 0).reputation_score = 50
    ∧ (get_oracle_reputation
        (calculate_consensus 0 stateOrderB).2 0).reputation_score = 49
    ∧ (get_oracle_reputation (calculate_consensus 0 stateOrderA).2 0).weight = 1
    ∧ (get_oracle_reputation (calculate_consensus 0 stateOrderB).2 0).weight = 0 :=
  ⟨by decide, rfl, rfl, rfl, rfl, by decide, by decide, by decide, by decide⟩

/-- C9 (amended): permuting the round buffer never changes the consensus
price returned by `calculate_consensus` (the weighted median is
order-independent); the final per-oracle reputation scores and weights,
however, may depend on the buffer order, because the rolling average
deviation truncates at every step. -/
theorem claim_C9_amended_price_perm_invariant (now : Nat)
    (st1 st2 : ContractState)
    (hperm : List.Perm st1.submissions st2.submissions)
    (hstats : st1.stats = st2.stats) :
    (calculate_consensus now st1).1 = (calculate_consensus now st2).1 := by
  by_cases h1 : st1.submissions = []
  · have h2 : st2.submissions = [] := by
      rw [h1] at hperm
      exact hperm.symm.eq_nil

    simp [calculate_consensus, h1, h2]
  · have h2 : st2.submissions ≠ [] := by
      intro hnil
      rw [hnil] at hperm
      exact h1 hperm.eq_nil
    simp only [calculate_consensus, if_neg h1, if_neg h2]
    show Except.ok (weighted_median st1 st1.submissions) =
      Except.ok (weighted_median st2 st2.submissions)
    have hw : List.Perm (weightedPrices st1 st1.submissions)
        (weightedPrices st2 st2.submissions) := by
      rw [show weightedPrices st2 st2.submissions =
          weightedPrices st1 st2.submissions from
        (weightedPrices_congr hstats st2.submissions).symm]
      exact weightedPrices_perm st1 hperm
    have hsortEq : (weightedPrices st1 st1.submissions).insertionSort
        (fun a b => a ≤ b) =
        (weightedPrices st2 st2.submissions).insertionSort (fun a b => a ≤ b) :=
      List.eq_of_perm_of_sorted
        ((List.perm_insertionSort _ _).trans
          (hw.trans (List.perm_insertionSort _ _).symm))
        (List.sorted_insertionSort _ _) (List.sorted_insertionSort _ _)
    rw [weighted_median_eq_spec st1 st1.submissions h1,
      weighted_median_eq_spec st2 st2.submissions h2, hsortEq]

/-- Witness for the amended C9 at the two concrete buffer orders. -/
theorem claim_C9_witness :
    (calculate_consensus 0 stateOrderA).1 = (calculate_consensus 0 stateOrderB).1 :=
  claim_C9_amended_price_perm_invariant 0 stateOrderA stateOrderB (by decide) rfl

end StellarSwipe
